import Mathlib

/-! Shallow embedding of the CDO source-term assembly module of code_saturne
    (the cs_source_term.c translation unit embedded in
    src/src/rayt/cs_rad_transfer_wall_flux.c).  Machine reals are modelled by
    rationals; C arrays by total functions on Nat; the scratch buffers of the
    cell builder (cb.values, cb.vectors) become local bindings, which is
    faithful because every aliasing reuse in the C code happens after the last
    read of the previous occupant. -/

/-- Three-component vector of rationals, modelling cs_real_3_t. -/
structure Vec3 where
  x : ℚ
  y : ℚ
  z : ℚ
deriving DecidableEq

def Vec3.zero : Vec3 := ⟨0, 0, 0⟩

def Vec3.add (a b : Vec3) : Vec3 := ⟨a.x + b.x, a.y + b.y, a.z + b.z⟩

def Vec3.sub (a b : Vec3) : Vec3 := ⟨a.x - b.x, a.y - b.y, a.z - b.z⟩

def Vec3.smul (c : ℚ) (a : Vec3) : Vec3 := ⟨c * a.x, c * a.y, c * a.z⟩

def Vec3.dot (a b : Vec3) : ℚ := a.x * b.x + a.y * b.y + a.z * b.z

def Vec3.cross (a b : Vec3) : Vec3 :=
  ⟨a.y * b.z - a.z * b.y, a.z * b.x - a.x * b.z, a.x * b.y - a.y * b.x⟩

/-- Embedding of cs_math_voltet: volume of the tetrahedron (xv, xe, xf, xc).
    The C routine multiplies the three edge lengths from xe by the triple
    product of the corresponding unit vectors, so the square roots cancel and
    the result is exactly one sixth of the absolute scalar triple product. -/
def voltet (xv xe xf xc : Vec3) : ℚ :=
  |Vec3.dot (Vec3.sub xv xe) (Vec3.cross (Vec3.sub xf xe) (Vec3.sub xc xe))| / 6

/-- Pointwise update of a rational-valued array (C indexed assignment). -/
def updQ (g : Nat → ℚ) (i : Nat) (a : ℚ) : Nat → ℚ :=
  fun j => if j = i then a else g j

/-- Pointwise update of a vector-valued array (C indexed assignment). -/
def updV (g : Nat → Vec3) (i : Nat) (a : Vec3) : Nat → Vec3 :=
  fun j => if j = i then a else g j

/-- Pointwise update of a mask array (C indexed assignment). -/
def updM (g : Nat → Nat) (i : Nat) (a : Nat) : Nat → Nat :=
  fun j => if j = i then a else g j

/-- Definition variant of a source term (cs_param_def_type_t as used here):
    CS_PARAM_DEF_BY_VALUE, CS_PARAM_DEF_BY_ANALYTIC_FUNCTION, and
    CS_PARAM_DEF_BY_ARRAY which the dispatch switch does not recognize. -/
inductive DefType
  | byValue
  | byAnalytic
  | byArray
deriving DecidableEq

/-- Quadrature choice (cs_quadra_type_t): CS_QUADRATURE_BARY,
    CS_QUADRATURE_BARY_SUBDIV, CS_QUADRATURE_HIGHER, CS_QUADRATURE_HIGHEST,
    plus a member not recognized by the dispatch switch (CS_QUADRATURE_NONE). -/
inductive QuadType
  | bary
  | barySubdiv
  | higher
  | highest
  | noneQ
deriving DecidableEq

/-- Space discretization scheme (cs_space_scheme_t members relevant to the
    dispatch switch: CDOVB, CDOVCB, and the members reaching its default). -/
inductive SpaceScheme
  | cdovb
  | cdovcb
  | cdofb
  | hho
deriving DecidableEq

/-- Embedding of cs_source_term_t.  The flag word is split into the two bits
    the module reads (CS_FLAG_FULL_LOC and CS_FLAG_DUAL versus
    CS_FLAG_PRIMAL); the def union is flattened; the mesh-location subset
    (elt list of ml_id) is inlined as eltIds; the external array pointer is
    modelled by an optional tag and the CS_FLAG_STATE_OWNER bit of
    array_desc.state by arrayOwner. -/
structure SourceTerm where
  name : String
  fullLoc : Bool
  dual : Bool
  eltIds : List Nat
  defType : DefType
  val : ℚ
  analytic : ℚ → Vec3 → ℚ
  quadType : QuadType
  arrayOwner : Bool
  array : Option Nat

instance : Inhabited SourceTerm :=
  ⟨{ name := "", fullLoc := true, dual := true, eltIds := [],
     defType := .byValue, val := 0, analytic := fun _ _ => 0,
     quadType := .bary, arrayOwner := false, array := none }⟩

/-- Embedding of the parts of cs_cell_mesh_t read by the evaluators:
    local counts, vertex coordinates xv, cell center xc, cell volume vol_c,
    dual-volume weights wvc, face and edge centers, and the f2e / e2v local
    connectivity (e2v_ids stores the two vertices of edge e at 2e and 2e+1). -/
structure CellMesh where
  c_id : Nat
  n_vc : Nat
  n_ec : Nat
  n_fc : Nat
  xv : Nat → Vec3
  xc : Vec3
  vol_c : ℚ
  wvc : Nat → ℚ
  faceCenter : Nat → Vec3
  edgeCenter : Nat → Vec3
  f2e_idx : Nat → Nat
  f2e_ids : Nat → Nat
  e2v_ids : Nat → Nat

/-- Local dense matrix (cs_locmat_t): size and entries. -/
structure LocMat where
  n : Nat
  val : Nat → Nat → ℚ

/-- Embedding of cs_locmat_matvec: row i of the product is the sum over the
    first n columns. -/
def cs_locmat_matvec (m : LocMat) (x : Nat → ℚ) : Nat → ℚ :=
  fun i => (List.range m.n).foldl (fun acc j => acc + m.val i j * x j) 0

/-- Embedding of the part of cs_cell_builder_t the evaluators consume beyond
    scratch space: the previously computed cellwise Hodge operator. -/
structure CellBuilder where
  hdg : LocMat

/-- Embedding of cs_source_term_pvsp_by_value (scalar potential at primal
    vertices, constant value).  The C code fills the scratch vector eval with
    the value at the n_vc vertex slots, applies the Hodge operator and adds
    the product; entries past n_vc are never read when hdg.n = n_vc, which is
    the calling contract, so they are modelled as zero here. -/
def cs_source_term_pvsp_by_value (source : Option SourceTerm) (cm : CellMesh)
    (cb : CellBuilder) (values : Nat → ℚ) : Nat → ℚ :=
  match source with
  | none => values
  | some st =>
    let eval : Nat → ℚ := fun v => if v < cm.n_vc then st.val else 0
    let hdg_eval := cs_locmat_matvec cb.hdg eval
    fun v => if v < cm.n_vc then values v + hdg_eval v else values v

/-- Embedding of cs_source_term_pvsp_by_analytic (scalar potential at primal
    vertices, analytic definition evaluated at the vertex coordinates at the
    current time tcur, then multiplied by the Hodge operator and added). -/
def cs_source_term_pvsp_by_analytic (source : Option SourceTerm)
    (cm : CellMesh) (tcur : ℚ) (cb : CellBuilder) (values : Nat → ℚ) :
    Nat → ℚ :=
  match source with
  | none => values
  | some st =>
    let eval : Nat → ℚ := fun v =>
      if v < cm.n_vc then st.analytic tcur (cm.xv v) else 0
    let hdg_eval := cs_locmat_matvec cb.hdg eval
    fun v => if v < cm.n_vc then values v + hdg_eval v else values v

/-- Embedding of cs_source_term_dcsd_by_value (scalar density at dual cells,
    constant value): adds density_value * wvc.v at every local vertex. -/
def cs_source_term_dcsd_by_value (source : Option SourceTerm) (cm : CellMesh)
    (cb : CellBuilder) (values : Nat → ℚ) : Nat → ℚ :=
  match source with
  | none => values
  | some st =>
    fun v => if v < cm.n_vc then values v + st.val * cm.wvc v else values v

/-- Embedding of cs_source_term_dcsd_bary_by_analytic (scalar density at dual
    cells, barycentric quadrature).  The barycenters xgv of the dual-cell
    portions are accumulated over the face/edge tetrahedral decomposition,
    normalized by the dual volume vol_c * wvc.v (rational division is total,
    with value 0 when the divisor is 0, standing for the unguarded C
    division), and the field value there is scaled by the dual volume.  The
    final store mirrors the plain assignment of the C code (values.v = ...),
    which discards the incoming buffer contents at the n_vc vertex slots. -/
def cs_source_term_dcsd_bary_by_analytic (source : Option SourceTerm)
    (cm : CellMesh) (tcur : ℚ) (cb : CellBuilder) (values : Nat → ℚ) :
    Nat → ℚ :=
  match source with
  | none => values
  | some st =>
    let xgv0 : Nat → Vec3 := fun _ => Vec3.zero
    let xgv : Nat → Vec3 :=
      (List.range cm.n_fc).foldl (fun xgv f =>
        let xf := cm.faceCenter f
        let xfc := Vec3.smul (1/4) (Vec3.add xf cm.xc)
        (List.range' (cm.f2e_idx f) (cm.f2e_idx (f+1) - cm.f2e_idx f)).foldl
          (fun xgv i =>
            let e := cm.f2e_ids i
            let v1 := cm.e2v_ids (2*e)
            let v2 := cm.e2v_ids (2*e+1)
            let xv1 := cm.xv v1
            let xv2 := cm.xv v2
            let tet_vol := (1/2) * voltet xv1 xv2 xf cm.xc
            let xgv := updV xgv v1 (Vec3.add (xgv v1)
              (Vec3.smul tet_vol (Vec3.add xfc
                (Vec3.add (Vec3.smul (3/8) xv1) (Vec3.smul (1/8) xv2)))))
            updV xgv v2 (Vec3.add (xgv v2)
              (Vec3.smul tet_vol (Vec3.add xfc
                (Vec3.add (Vec3.smul (3/8) xv2) (Vec3.smul (1/8) xv1))))))
          xgv) xgv0
    let xgvn : Nat → Vec3 := fun v =>
      if v < cm.n_vc then Vec3.smul (1 / (cm.vol_c * cm.wvc v)) (xgv v)
      else xgv v
    fun v =>
      if v < cm.n_vc then cm.vol_c * cm.wvc v * st.analytic tcur (xgvn v)
      else values v

/-- Embedding of cs_source_term_dcsd_q1o1_by_analytic (scalar density at dual
    cells, subdivided one-point quadrature): the field is evaluated at the
    barycenter of each half sub-tetrahedron and added, weighted by the half
    tetrahedron volume. -/
def cs_source_term_dcsd_q1o1_by_analytic (source : Option SourceTerm)
    (cm : CellMesh) (tcur : ℚ) (cb : CellBuilder) (values : Nat → ℚ) :
    Nat → ℚ :=
  match source with
  | none => values
  | some st =>
    let ana := st.analytic tcur
    (List.range cm.n_fc).foldl (fun values f =>
      let xf := cm.faceCenter f
      let xfc := Vec3.smul (1/4) (Vec3.add xf cm.xc)
      (List.range' (cm.f2e_idx f) (cm.f2e_idx (f+1) - cm.f2e_idx f)).foldl
        (fun values i =>
          let e := cm.f2e_ids i
          let v1 := cm.e2v_ids (2*e)
          let v2 := cm.e2v_ids (2*e+1)
          let xv1 := cm.xv v1
          let xv2 := cm.xv v2
          let tet_vol := (1/2) * voltet xv1 xv2 xf cm.xc
          let xg0 := Vec3.add xfc
            (Vec3.add (Vec3.smul (3/8) xv1) (Vec3.smul (1/8) xv2))
          let xg1 := Vec3.add xfc
            (Vec3.add (Vec3.smul (3/8) xv2) (Vec3.smul (1/8) xv1))
          let r0 := ana xg0
          let r1 := ana xg1
          let values := updQ values v1 (values v1 + tet_vol * r0)
          updQ values v2 (values v2 + tet_vol * r1))
        values) values

/-- Embedding of cs_source_term_dcsd_q10o2_by_analytic (scalar density at
    dual cells, ten-point order-2 quadrature).  The per-vertex contrib buffer
    starts from the corner/midpoint combination at the cell center, vertices
    and their midpoints, then gains face-loop, face-vertex, edge-vertex and
    edge-center terms; the second batched edge evaluation reads the point
    array (edge centers followed by edge-cell midpoints) at indices 2e and
    2e+1, exactly as the C code does. -/
def cs_source_term_dcsd_q10o2_by_analytic (source : Option SourceTerm)
    (cm : CellMesh) (tcur : ℚ) (cb : CellBuilder) (values : Nat → ℚ) :
    Nat → ℚ :=
  match source with
  | none => values
  | some st =>
    let ana := st.analytic tcur
    let val_c := ana cm.xc
    let contrib0 : Nat → ℚ := fun v =>
      cm.wvc v * cm.vol_c *
        (-(1/20) * (val_c + ana (cm.xv v)) +
          (1/5) * ana (Vec3.smul (1/2) (Vec3.add cm.xc (cm.xv v))))
    let pec0 : Nat → ℚ := fun _ => 0
    let face_pass :=
      (List.range cm.n_fc).foldl (fun (acc : (Nat → ℚ) × (Nat → ℚ)) f =>
        let xf := cm.faceCenter f
        let pfv0 : Nat → ℚ := fun _ => 0
        let inner :=
          (List.range' (cm.f2e_idx f) (cm.f2e_idx (f+1) - cm.f2e_idx f)).foldl
            (fun (s : (Nat → ℚ) × (Nat → ℚ) × (Nat → ℚ)) i =>
              let contrib := s.1
              let pec := s.2.1
              let pfv := s.2.2
              let e := cm.f2e_ids i
              let v1 := cm.e2v_ids (2*e)
              let v2 := cm.e2v_ids (2*e+1)
              let pef_vol := voltet (cm.xv v1) (cm.xv v2) xf cm.xc
              let pec := updQ pec e (pec e + pef_vol)
              let pfv := updQ pfv v1 (pfv v1 + (1/2) * pef_vol)
              let pfv := updQ pfv v2 (pfv v2 + (1/2) * pef_vol)
              let xef := Vec3.smul (1/2) (Vec3.add (cm.edgeCenter e) xf)
              let ef_contrib := (1/10) * pef_vol * ana xef
              let contrib := updQ contrib v1 (contrib v1 + ef_contrib)
              let contrib := updQ contrib v2 (contrib v2 + ef_contrib)
              (contrib, pec, pfv))
            (acc.1, acc.2, pfv0)
        let contrib := inner.1
        let pec := inner.2.1
        let pfv := inner.2.2
        let val_f := -(1/20) * ana xf +
          (1/5) * ana (Vec3.smul (1/2) (Vec3.add xf cm.xc))
        let contrib : Nat → ℚ := fun v =>
          if v < cm.n_vc then
            if pfv v > 0 then
              contrib v + pfv v *
                (val_f + (1/5) * ana (Vec3.smul (1/2) (Vec3.add xf (cm.xv v))))
            else contrib v
          else contrib v
        (contrib, pec)) (contrib0, pec0)
    let contrib := face_pass.1
    let pec_vol := face_pass.2
    let xev : Nat → Vec3 := fun j =>
      let e := j / 2
      if j % 2 = 0 then
        Vec3.smul (1/2) (Vec3.add (cm.xv (cm.e2v_ids (2*e))) (cm.edgeCenter e))
      else
        Vec3.smul (1/2) (Vec3.add (cm.xv (cm.e2v_ids (2*e+1))) (cm.edgeCenter e))
    let val_ev : Nat → ℚ := fun j => ana (xev j)
    let contrib :=
      (List.range cm.n_ec).foldl (fun contrib e =>
        let vol_e := (1/10) * pec_vol e
        let v1 := cm.e2v_ids (2*e)
        let v2 := cm.e2v_ids (2*e+1)
        let contrib := updQ contrib v1 (contrib v1 + vol_e * val_ev (2*e))
        updQ contrib v2 (contrib v2 + vol_e * val_ev (2*e+1))) contrib
    let pts2 : Nat → Vec3 := fun j =>
      if j < cm.n_ec then cm.edgeCenter j
      else Vec3.smul (1/2) (Vec3.add cm.xc (cm.edgeCenter (j - cm.n_ec)))
    let val_ec : Nat → ℚ := fun j => ana (pts2 j)
    let contrib :=
      (List.range cm.n_ec).foldl (fun contrib e =>
        let val_e := -(1/20) * val_ec (2*e) + (1/5) * val_ec (2*e+1)
        let e_contrib := (1/2) * pec_vol e * val_e
        let v1 := cm.e2v_ids (2*e)
        let v2 := cm.e2v_ids (2*e+1)
        let contrib := updQ contrib v1 (contrib v1 + e_contrib)
        updQ contrib v2 (contrib v2 + e_contrib)) contrib
    fun v => if v < cm.n_vc then values v + contrib v else values v

/-- Modelled from the spec: cs_quadrature_tet_5pts lives in cs_quadrature.h,
    which is not part of the provided sources.  Following the spec (the
    standard five-point degree-3-exact tetrahedral rule scaled by the
    sub-tetrahedron volume): the barycenter with weight -4/5 vol and the four
    points shifted toward each corner (1/2, 1/6, 1/6, 1/6 barycentric
    coordinates) with weight 9/20 vol each. -/
def cs_quadrature_tet_5pts (x1 x2 x3 x4 : Vec3) (vol : ℚ) :
    List (Vec3 × ℚ) :=
  let bc := Vec3.smul (1/4)
    (Vec3.add (Vec3.add x1 x2) (Vec3.add x3 x4))
  let shift := fun (a b c d : Vec3) =>
    Vec3.add (Vec3.smul (1/2) a)
      (Vec3.smul (1/6) (Vec3.add b (Vec3.add c d)))
  [(bc, -(4/5) * vol),
   (shift x1 x2 x3 x4, (9/20) * vol),
   (shift x2 x1 x3 x4, (9/20) * vol),
   (shift x3 x1 x2 x4, (9/20) * vol),
   (shift x4 x1 x2 x3, (9/20) * vol)]

/-- Embedding of cs_source_term_dcsd_q5o3_by_analytic (scalar density at dual
    cells, five-point order-3 quadrature per half sub-tetrahedron). -/
def cs_source_term_dcsd_q5o3_by_analytic (source : Option SourceTerm)
    (cm : CellMesh) (tcur : ℚ) (cb : CellBuilder) (values : Nat → ℚ) :
    Nat → ℚ :=
  match source with
  | none => values
  | some st =>
    let ana := st.analytic tcur
    let contrib0 : Nat → ℚ := fun _ => 0
    let contrib :=
      (List.range cm.n_fc).foldl (fun contrib f =>
        let xf := cm.faceCenter f
        (List.range' (cm.f2e_idx f) (cm.f2e_idx (f+1) - cm.f2e_idx f)).foldl
          (fun contrib i =>
            let e := cm.f2e_ids i
            let v1 := cm.e2v_ids (2*e)
            let v2 := cm.e2v_ids (2*e+1)
            let tet_vol := (1/2) * voltet (cm.xv v1) (cm.xv v2) xf cm.xc
            let s1 := ((cs_quadrature_tet_5pts (cm.xv v1) (cm.edgeCenter e)
                xf cm.xc tet_vol).map (fun pw => ana pw.1 * pw.2)).sum
            let contrib := updQ contrib v1 (contrib v1 + s1)
            let s2 := ((cs_quadrature_tet_5pts (cm.xv v2) (cm.edgeCenter e)
                xf cm.xc tet_vol).map (fun pw => ana pw.1 * pw.2)).sum
            updQ contrib v2 (contrib v2 + s2))
          contrib) contrib0
    fun v => if v < cm.n_vc then values v + contrib v else values v

/-- Embedding of cs_source_term_vcsp_by_value (scalar potential at primal
    vertices and the cell, constant value; n_vc + 1 degrees of freedom). -/
def cs_source_term_vcsp_by_value (source : Option SourceTerm) (cm : CellMesh)
    (cb : CellBuilder) (values : Nat → ℚ) : Nat → ℚ :=
  match source with
  | none => values
  | some st =>
    let eval : Nat → ℚ := fun v => if v < cm.n_vc + 1 then st.val else 0
    let hdg_eval := cs_locmat_matvec cb.hdg eval
    fun v => if v < cm.n_vc + 1 then values v + hdg_eval v else values v

/-- Embedding of cs_source_term_vcsp_by_analytic (scalar potential at primal
    vertices and the cell, analytic definition; n_vc + 1 degrees of
    freedom, the last one evaluated at the cell center). -/
def cs_source_term_vcsp_by_analytic (source : Option SourceTerm)
    (cm : CellMesh) (tcur : ℚ) (cb : CellBuilder) (values : Nat → ℚ) :
    Nat → ℚ :=
  match source with
  | none => values
  | some st =>
    let eval : Nat → ℚ := fun v =>
      if v < cm.n_vc then st.analytic tcur (cm.xv v)
      else if v = cm.n_vc then st.analytic tcur cm.xc
      else 0
    let hdg_eval := cs_locmat_matvec cb.hdg eval
    fun v => if v < cm.n_vc + 1 then values v + hdg_eval v else values v

/-- Handle identifying the cellwise evaluator stored by cs_source_term_init
    into compute_source (the dispatch table of function pointers). -/
inductive ComputeHandle
  | pvsp_by_value
  | pvsp_by_analytic
  | dcsd_by_value
  | dcsd_bary_by_analytic
  | dcsd_q1o1_by_analytic
  | dcsd_q10o2_by_analytic
  | dcsd_q5o3_by_analytic
  | vcsp_by_value
  | vcsp_by_analytic
deriving DecidableEq

/-- Embedding of the per-term dispatch-resolution switch of
    cs_source_term_init (the space-scheme switch, lines selecting
    compute_source entries): every branch either stores a handle or calls
    bft_error, modelled as the error case of Except with the message of the
    corresponding bft_error call. -/
def resolve_compute_source (scheme : SpaceScheme) (st : SourceTerm) :
    Except String ComputeHandle :=
  match scheme with
  | .cdovb =>
    if st.dual then
      match st.defType with
      | .byValue => .ok .dcsd_by_value
      | .byAnalytic =>
        match st.quadType with
        | .bary => .ok .dcsd_bary_by_analytic
        | .barySubdiv => .ok .dcsd_q1o1_by_analytic
        | .higher => .ok .dcsd_q10o2_by_analytic
        | .highest => .ok .dcsd_q5o3_by_analytic
        | .noneQ => .error "Invalid type of quadrature for computing a source term with CDOVB schemes"
      | .byArray => .error "Invalid type of definition for a source term in CDOVB"
    else
      match st.defType with
      | .byValue => .ok .pvsp_by_value
      | .byAnalytic => .ok .pvsp_by_analytic
      | .byArray => .error "Invalid type of definition for a source term in CDOVB"
  | .cdovcb =>
    if st.dual then
      .error "Invalid type of definition for a source term in CDOVB"
    else
      match st.defType with
      | .byValue => .ok .vcsp_by_value
      | .byAnalytic => .ok .vcsp_by_analytic
      | .byArray => .error "Invalid type of definition for a source term in CDOVB"
  | _ => .error "Invalid space scheme for setting the source term."

/-- Embedding of the static helper _set_mask: OR the bit of this source term
    into the mask word of every selected cell.  A term carrying
    CS_FLAG_FULL_LOC touches every cell below n_cells; otherwise the elt list
    of its mesh location is traversed and the word at each raw listed index
    is updated, with no bounds test, exactly as in the C code. -/
def set_mask (st : SourceTerm) (st_id : Nat) (n_cells : Nat)
    (cell_mask : Nat → Nat) : Nat → Nat :=
  let mask := 1 <<< st_id
  if st.fullLoc then
    fun i => if i < n_cells then cell_mask i ||| mask else cell_mask i
  else
    st.eltIds.foldl (fun cmk ei => updM cmk ei (cmk ei ||| mask)) cell_mask

/-- The _set_mask loop of cs_source_term_init: apply set_mask to each source
    term in order of increasing id, starting from id k. -/
def set_masks_loop : Nat → List SourceTerm → Nat → (Nat → Nat) → (Nat → Nat)
  | _, [], _, m => m
  | k, st :: rest, n_cells, m =>
      set_masks_loop (k+1) rest n_cells (set_mask st k n_cells m)

/-- Mask words built by cs_source_term_init when a mask is needed: one word
    per cell, all words starting at zero, then filled term by term. -/
def mask_words (terms : List SourceTerm) (n_cells : Nat) : Nat → Nat :=
  set_masks_loop 0 terms n_cells (fun _ => 0)

/-- Mask-construction outcome of cs_source_term_init: with no source term, or
    when no term lacks CS_FLAG_FULL_LOC (need_mask stays false), source_mask
    is left NULL (the no-mask sentinel); otherwise the mask words are built. -/
def build_source_mask (terms : List SourceTerm) (n_cells : Nat) :
    Option (Nat → Nat) :=
  if terms.length = 0 then none
  else if terms.any (fun st => !st.fullLoc) then some (mask_words terms n_cells)
  else none

/-- Whether a source term applies to cell c in the built mask: a full-domain
    term was written to every cell below n_cells, any other term to the raw
    indices of its elt list. -/
def st_covers (st : SourceTerm) (n_cells c : Nat) : Prop :=
  if st.fullLoc then c < n_cells else c ∈ st.eltIds

instance (st : SourceTerm) (n_cells c : Nat) :
    Decidable (st_covers st n_cells c) := by
  unfold st_covers; infer_instance

/-- Embedding of cs_source_term_destroy as a resource log: the loop frees the
    name of every term in order, and frees the external array of a term
    exactly when the CS_FLAG_STATE_OWNER bit is set and the array pointer is
    non-null.  The freed arrays are recorded by term index.  The function
    finally releases the descriptor array itself and returns NULL; on a NULL
    input it returns at once, freeing nothing. -/
def destroy_loop : Nat → List SourceTerm → List String × List Nat
  | _, [] => ([], [])
  | k, st :: rest =>
      let r := destroy_loop (k+1) rest
      (st.name :: r.1,
       if st.arrayOwner && st.array.isSome then k :: r.2 else r.2)

/-- Embedding of cs_source_term_destroy: pair of (freed names, indices of
    freed arrays) together with the returned pointer (always NULL). -/
def cs_source_term_destroy (source_terms : Option (List SourceTerm)) :
    (List String × List Nat) × Option (List SourceTerm) :=
  match source_terms with
  | none => (([], []), none)
  | some l => (destroy_loop 0 l, none)

/-- Embedding of cs_source_term_compute_cellwise.  The source buffer of the
    cellwise system is reset to zero on its n_dofs entries; if the
    CS_FLAG_SYS_SOURCETERM bit of sys_flag is clear the function returns at
    once; otherwise the terms are visited in order of id, each handle being
    applied when source_mask is the NULL sentinel or when the bit of the term
    is set in the mask word of the cell.  The dispatch-table entry for id
    st_id is abstracted as compute_source st_id applied to the descriptor
    pointer source_terms + st_id (modelled by List.get?). -/
def cs_source_term_compute_cellwise
    (n_source_terms : Nat)
    (source_terms : List SourceTerm)
    (cm : CellMesh)
    (cb : CellBuilder)
    (sys_flag_sourceterm : Bool)
    (source_mask : Option (Nat → Nat))
    (compute_source :
      Nat → Option SourceTerm → CellMesh → CellBuilder → (Nat → ℚ) → Nat → ℚ)
    (n_dofs : Nat)
    (source0 : Nat → ℚ) : Nat → ℚ :=
  let source : Nat → ℚ := fun i => if i < n_dofs then 0 else source0 i
  if !sys_flag_sourceterm then source
  else
    match source_mask with
    | none =>
        (List.range n_source_terms).foldl
          (fun s st_id => compute_source st_id (source_terms.get? st_id) cm cb s)
          source
    | some mask =>
        (List.range n_source_terms).foldl
          (fun s st_id =>
            if mask cm.c_id &&& (1 <<< st_id) != 0 then
              compute_source st_id (source_terms.get? st_id) cm cb s
            else s)
          source

/-- Term ids the driver applies for one cell: all of 0 .. n-1 under the NULL
    sentinel, otherwise the ids whose bit is set in the mask word of the
    cell. -/
def selected_term_ids (n_source_terms : Nat) (source_mask : Option (Nat → Nat))
    (c_id : Nat) : List Nat :=
  match source_mask with
  | none => List.range n_source_terms
  | some mask =>
      (List.range n_source_terms).filter
        (fun st_id => mask c_id &&& (1 <<< st_id) != 0)

/-- Constant-zero analytic definition used in concrete evaluations. -/
def anaZero : ℚ → Vec3 → ℚ := fun _ _ => 0

/-- A cell builder with an empty Hodge operator for evaluators that do not
    read it. -/
def cbTriv : CellBuilder := { hdg := { n := 0, val := fun _ _ => 0 } }

/-- Unit reference tetrahedron as a cellwise mesh: four vertices, six edges,
    four faces, volume 1/6, dual-volume weight 1/4 at every vertex. -/
def tetCell : CellMesh where
  c_id := 0
  n_vc := 4
  n_ec := 6
  n_fc := 4
  xv := fun v =>
    [(⟨0,0,0⟩ : Vec3), ⟨1,0,0⟩, ⟨0,1,0⟩, ⟨0,0,1⟩].getD v ⟨0,0,0⟩
  xc := ⟨1/4, 1/4, 1/4⟩
  vol_c := 1/6
  wvc := fun _ => 1/4
  faceCenter := fun f =>
    [(⟨1/3,1/3,0⟩ : Vec3), ⟨1/3,0,1/3⟩, ⟨0,1/3,1/3⟩, ⟨1/3,1/3,1/3⟩].getD f ⟨0,0,0⟩
  edgeCenter := fun e =>
    [(⟨1/2,0,0⟩ : Vec3), ⟨0,1/2,0⟩, ⟨0,0,1/2⟩, ⟨1/2,1/2,0⟩, ⟨1/2,0,1/2⟩,
     ⟨0,1/2,1/2⟩].getD e ⟨0,0,0⟩
  f2e_idx := fun f => 3 * f
  f2e_ids := fun i => [0,3,1,0,4,2,1,5,2,3,5,4].getD i 0
  e2v_ids := fun i => [0,1,0,2,0,3,1,2,1,3,2,3].getD i 0

/-- Full-domain dual source term defined by the constant-zero analytic
    function with barycentric quadrature. -/
def stBary : SourceTerm where
  name := "bary"
  fullLoc := true
  dual := true
  eltIds := []
  defType := .byAnalytic
  val := 0
  analytic := anaZero
  quadType := .bary
  arrayOwner := false
  array := none

/-- Full-domain dual source term defined by the constant value 3. -/
def stVal : SourceTerm where
  name := "val"
  fullLoc := true
  dual := true
  eltIds := []
  defType := .byValue
  val := 3
  analytic := anaZero
  quadType := .bary
  arrayOwner := false
  array := none

/-- C1: the spec says every quadrature evaluator adds its cell contribution
    to the buffer of the caller and never overwrites it.  The code of
    cs_source_term_dcsd_bary_by_analytic contradicts its own doc comment
    (add it the given array of values): on the unit tetrahedron with the
    constant-zero field and an all-ones incoming buffer, the final entry at
    vertex 0 is 0, although the cell contribution is 0 at every quadrature
    point, so additive semantics would leave the entry at 1. -/
theorem c1_dcsd_bary_overwrites_buffer :
    cs_source_term_dcsd_bary_by_analytic (some stBary) tetCell 0 cbTriv
      (fun _ => 1) 0 = 0 ∧
    (∀ p : Vec3,
      (1 : ℚ) + tetCell.vol_c * tetCell.wvc 0 * stBary.analytic 0 p = 1) ∧
    ((0 : ℚ) = 1 → False) := by
  refine ⟨?_, ?_, by norm_num⟩
  · simp [cs_source_term_dcsd_bary_by_analytic, stBary, anaZero, tetCell]
  · intro p
    norm_num [stBary, anaZero]

/-- C2: the spec says the by-value density evaluator adds
    c * wvc.v * vol_c at each vertex, summing to c * vol_c over the cell.
    The code adds only c * wvc.v: on the unit tetrahedron (vol_c = 1/6) with
    c = 3 and a zero incoming buffer the vertex contributions sum to 3,
    while the claimed total c * vol_c is 1/2. -/
theorem c2_dcsd_by_value_drops_cell_volume :
    (cs_source_term_dcsd_by_value (some stVal) tetCell cbTriv (fun _ => 0)) 0 +
    (cs_source_term_dcsd_by_value (some stVal) tetCell cbTriv (fun _ => 0)) 1 +
    (cs_source_term_dcsd_by_value (some stVal) tetCell cbTriv (fun _ => 0)) 2 +
    (cs_source_term_dcsd_by_value (some stVal) tetCell cbTriv (fun _ => 0)) 3
      = 3 ∧
    stVal.val * tetCell.vol_c = 1/2 ∧
    ((3 : ℚ) = 1/2 → False) := by
  refine ⟨?_, ?_, by norm_num⟩
  · simp [cs_source_term_dcsd_by_value, stVal, tetCell]
    norm_num
  · simp [stVal, tetCell]
    norm_num

/-- C10: a NULL source descriptor makes every cellwise evaluator of the
    dispatch family return at once with the output buffer (and everything
    else) unchanged. -/
theorem c10_null_descriptor_is_noop (cm : CellMesh) (cb : CellBuilder)
    (tcur : ℚ) (values : Nat → ℚ) :
    cs_source_term_pvsp_by_value none cm cb values = values ∧
    cs_source_term_pvsp_by_analytic none cm tcur cb values = values ∧
    cs_source_term_dcsd_by_value none cm cb values = values ∧
    cs_source_term_dcsd_bary_by_analytic none cm tcur cb values = values ∧
    cs_source_term_dcsd_q1o1_by_analytic none cm tcur cb values = values ∧
    cs_source_term_dcsd_q10o2_by_analytic none cm tcur cb values = values ∧
    cs_source_term_dcsd_q5o3_by_analytic none cm tcur cb values = values ∧
    cs_source_term_vcsp_by_value none cm cb values = values ∧
    cs_source_term_vcsp_by_analytic none cm tcur cb values = values :=
  ⟨rfl, rfl, rfl, rfl, rfl, rfl, rfl, rfl, rfl⟩

lemma testBit_one_shiftLeft (k i : Nat) :
    (1 <<< k).testBit i = decide (i = k) := by
  rw [Nat.one_shiftLeft, Nat.testBit_two_pow]
  by_cases h : i = k <;> simp [h, Ne.symm]

lemma testBit_set_mask_elts (ids : List Nat) (k : Nat) (m : Nat → Nat)
    (c i : Nat) :
    ((ids.foldl (fun cmk ei => updM cmk ei (cmk ei ||| (1 <<< k))) m) c).testBit i
        = true
      ↔ (m c).testBit i = true ∨ (i = k ∧ c ∈ ids) := by
  induction ids generalizing m with
  | nil => simp
  | cons e rest ih =>
    simp only [List.foldl_cons, List.mem_cons]
    rw [ih]
    simp only [updM]
    by_cases hc : c = e
    · subst hc
      rw [if_pos rfl, Nat.testBit_lor, testBit_one_shiftLeft]
      simp only [Bool.or_eq_true, decide_eq_true_eq]
      constructor
      · rintro ((hb | hik) | ⟨hik, hmem⟩)
        · exact Or.inl hb
        · exact Or.inr ⟨hik, by simp⟩
        · exact Or.inr ⟨hik, Or.inr hmem⟩
      · rintro (hb | ⟨hik, _⟩)
        · exact Or.inl (Or.inl hb)
        · exact Or.inl (Or.inr hik)
    · simp only [if_neg hc]
      tauto

lemma testBit_set_mask (st : SourceTerm) (k n_cells : Nat) (m : Nat → Nat)
    (c i : Nat) :
    ((set_mask st k n_cells m) c).testBit i = true
      ↔ (m c).testBit i = true ∨ (i = k ∧ st_covers st n_cells c) := by
  unfold set_mask st_covers
  by_cases hf : st.fullLoc = true
  · simp only [hf, if_true]
    by_cases hc : c < n_cells
    · simp only [if_pos hc, Nat.testBit_lor, testBit_one_shiftLeft,
        Bool.or_eq_true, decide_eq_true_eq]
      tauto
    · simp only [if_neg hc]
      tauto
  · simp only [hf, if_false]
    exact testBit_set_mask_elts st.eltIds k m c i

lemma testBit_set_masks_loop (ts : List SourceTerm) (k n_cells : Nat)
    (m : Nat → Nat) (c i : Nat) :
    ((set_masks_loop k ts n_cells m) c).testBit i = true
      ↔ (m c).testBit i = true ∨
        ∃ j st, ts.get? j = some st ∧ i = k + j ∧ st_covers st n_cells c := by
  induction ts generalizing k m with
  | nil => simp [set_masks_loop]
  | cons st rest ih =>
    rw [set_masks_loop, ih, testBit_set_mask]
    constructor
    · rintro ((hb | ⟨rfl, hcov⟩) | ⟨j, st2, hget, rfl, hcov⟩)
      · exact Or.inl hb
      · exact Or.inr ⟨0, st, rfl, by omega, hcov⟩
      · exact Or.inr ⟨j + 1, st2, by simpa using hget, by omega, hcov⟩
    · rintro (hb | ⟨j, st2, hget, rfl, hcov⟩)
      · exact Or.inl (Or.inl hb)
      · cases j with
        | zero =>
            have h2 : st = st2 := by simpa using hget
            subst h2
            exact Or.inl (Or.inr ⟨by omega, hcov⟩)
        | succ j =>
            exact Or.inr ⟨j, st2, by simpa using hget, by omega, hcov⟩

lemma testBit_mask_words (terms : List SourceTerm) (n_cells c i : Nat) :
    ((mask_words terms n_cells) c).testBit i = true
      ↔ ∃ st, terms.get? i = some st ∧ st_covers st n_cells c := by
  unfold mask_words
  rw [testBit_set_masks_loop]
  simp only [Nat.zero_testBit, Bool.false_eq_true, false_or]
  constructor
  · rintro ⟨j, st, hget, rfl, hcov⟩
    exact ⟨st, by simpa using hget, hcov⟩
  · rintro ⟨st, hget, hcov⟩
    exact ⟨i, st, hget, by omega, hcov⟩

lemma foldl_filter_ite {α : Type} (p : Nat → Bool) (f : α → Nat → α)
    (l : List Nat) (s : α) :
    (l.filter p).foldl f s = l.foldl (fun a x => if p x then f a x else a) s := by
  induction l generalizing s with
  | nil => rfl
  | cons a l ih =>
    simp only [List.filter_cons, List.foldl_cons]
    by_cases h : p a = true
    · simp only [h, if_true, List.foldl_cons]
      exact ih (f s a)
    · simp only [h, if_false]
      exact ih s

lemma foldl_ite_of_true {α : Type} (p : Nat → Bool) (f : α → Nat → α)
    (l : List Nat) (s : α) (h : ∀ x ∈ l, p x = true) :
    l.foldl (fun a x => if p x then f a x else a) s = l.foldl f s := by
  induction l generalizing s with
  | nil => rfl
  | cons a l ih =>
    simp only [List.foldl_cons, h a (List.mem_cons_self a l), if_true]
    exact ih (f s a) (fun x hx => h x (List.mem_cons_of_mem a hx))

lemma allones_mask_bit (n i : Nat) (h : i < n) :
    (((1 <<< n) - 1) &&& (1 <<< i) != 0) = true := by
  have hbit : (((1 <<< n) - 1) &&& (1 <<< i)).testBit i = true := by
    rw [Nat.testBit_land, testBit_one_shiftLeft, Nat.one_shiftLeft,
      Nat.testBit_two_pow_sub_one]
    simp [h]
  have hne : ((1 <<< n) - 1) &&& (1 <<< i) ≠ 0 := by
    intro h0
    rw [h0, Nat.zero_testBit] at hbit
    exact Bool.false_ne_true hbit
  simpa using hne

/-- Source term restricted to the subset containing only cell 0. -/
def stSub : SourceTerm where
  name := "sub"
  fullLoc := false
  dual := true
  eltIds := [0]
  defType := .byValue
  val := 1
  analytic := anaZero
  quadType := .bary
  arrayOwner := false
  array := none

/-- Source term whose subset holds the out-of-range cell index 5. -/
def stOOB : SourceTerm where
  name := "oob"
  fullLoc := false
  dual := true
  eltIds := [5]
  defType := .byValue
  val := 1
  analytic := anaZero
  quadType := .bary
  arrayOwner := false
  array := none

/-- Source term owning its external array (tag 7). -/
def stOwn : SourceTerm where
  name := "own"
  fullLoc := true
  dual := true
  eltIds := []
  defType := .byArray
  val := 0
  analytic := anaZero
  quadType := .bary
  arrayOwner := true
  array := some 7

/-- Source term borrowing its external array (tag 8). -/
def stBor : SourceTerm where
  name := "bor"
  fullLoc := true
  dual := true
  eltIds := []
  defType := .byArray
  val := 0
  analytic := anaZero
  quadType := .bary
  arrayOwner := false
  array := some 8

/-- C3: when at least one defined term is not full-domain (need_mask holds),
    cs_source_term_init builds one mask word per cell and, for every cell
    below the cell count and every defined term, the bit of the term is set
    in the word of the cell exactly when the term is full-domain or the cell
    belongs to its subset. -/
theorem c3_cell_mask_bit_semantics (terms : List SourceTerm) (n_cells : Nat)
    (hmask : terms.any (fun st => !st.fullLoc) = true) :
    build_source_mask terms n_cells = some (mask_words terms n_cells) ∧
    ∀ c, c < n_cells → ∀ i st, terms.get? i = some st →
      (((mask_words terms n_cells) c).testBit i = true ↔
        (st.fullLoc = true ∨ c ∈ st.eltIds)) := by
  constructor
  · have hne : ¬ terms.length = 0 := by
      intro h0
      rw [List.length_eq_zero] at h0
      subst h0
      simp at hmask
    unfold build_source_mask
    rw [if_neg hne, if_pos hmask]
  · intro c hc i st hget
    rw [testBit_mask_words]
    constructor
    · rintro ⟨st2, hget2, hcov⟩
      rw [hget] at hget2
      injection hget2 with h2
      subst h2
      unfold st_covers at hcov
      by_cases hf : st.fullLoc = true
      · exact Or.inl hf
      · rw [if_neg hf] at hcov
        exact Or.inr hcov
    · intro hcase
      refine ⟨st, hget, ?_⟩
      unfold st_covers
      by_cases hf : st.fullLoc = true
      · rw [if_pos hf]
        exact hc
      · rw [if_neg hf]
        rcases hcase with hfull | hmem
        · exact absurd hfull hf
        · exact hmem

/-- Witness for C3 on a two-term registry (one restricted term, one
    full-domain term) over two cells. -/
theorem c3_cell_mask_bit_semantics_witness :
    ([stSub, stVal] : List SourceTerm).any (fun st => !st.fullLoc) = true ∧
    (build_source_mask [stSub, stVal] 2 = some (mask_words [stSub, stVal] 2) ∧
     ∀ c, c < 2 → ∀ i st, ([stSub, stVal] : List SourceTerm).get? i = some st →
       (((mask_words [stSub, stVal] 2) c).testBit i = true ↔
         (st.fullLoc = true ∨ c ∈ st.eltIds))) :=
  ⟨rfl, c3_cell_mask_bit_semantics [stSub, stVal] 2 rfl⟩

/-- C4: when every defined term is full-domain, mask construction yields the
    NULL sentinel, and the per-cell driver run through the sentinel produces
    exactly the buffer produced through an explicit mask with the bits of all
    n_st terms set for every cell. -/
theorem c4_sentinel_equals_all_ones_mask (terms : List SourceTerm)
    (n_cells n_st : Nat) (cm : CellMesh) (cb : CellBuilder)
    (compute :
      Nat → Option SourceTerm → CellMesh → CellBuilder → (Nat → ℚ) → Nat → ℚ)
    (n_dofs : Nat) (source0 : Nat → ℚ)
    (hfull : terms.all (fun st => st.fullLoc) = true) :
    build_source_mask terms n_cells = none ∧
    cs_source_term_compute_cellwise n_st terms cm cb true none compute
        n_dofs source0
      = cs_source_term_compute_cellwise n_st terms cm cb true
          (some (fun _ => (1 <<< n_st) - 1)) compute n_dofs source0 := by
  constructor
  · unfold build_source_mask
    by_cases h0 : terms.length = 0
    · rw [if_pos h0]
    · rw [if_neg h0]
      have hany : terms.any (fun st => !st.fullLoc) = false := by
        rw [List.any_eq_false]
        intro st hst
        have := List.all_eq_true.mp hfull st hst
        simp [this]
      rw [hany]
      simp
  · unfold cs_source_term_compute_cellwise
    simp only [Bool.not_true, Bool.false_eq_true, if_false]
    exact (foldl_ite_of_true _ _ _ _
      (fun x hx => allones_mask_bit n_st x (List.mem_range.mp hx))).symm

/-- Witness for C4 on a one-term full-domain registry. -/
theorem c4_sentinel_equals_all_ones_mask_witness :
    ([stVal] : List SourceTerm).all (fun st => st.fullLoc) = true ∧
    (build_source_mask [stVal] 3 = none ∧
     cs_source_term_compute_cellwise 1 [stVal] tetCell cbTriv true none
         (fun _ _ _ _ s => s) 4 (fun _ => 0)
       = cs_source_term_compute_cellwise 1 [stVal] tetCell cbTriv true
           (some (fun _ => (1 <<< 1) - 1)) (fun _ _ _ _ s => s) 4
           (fun _ => 0)) :=
  ⟨rfl, c4_sentinel_equals_all_ones_mask [stVal] 3 1 tetCell cbTriv
    (fun _ _ _ _ s => s) 4 (fun _ => 0) rfl⟩

/-- C5: the per-cell driver first zeroes the n_dofs entries of the output
    buffer; with the source-term system bit clear it returns that zeroed
    buffer unchanged; with the bit set it folds, in increasing term id order,
    exactly the handles selected by the mask (all ids under the NULL
    sentinel, else the ids whose bit is set in the word of the cell),
    accumulating each into the buffer. -/
theorem c5_driver_zeroes_then_folds_selected (n_st : Nat)
    (terms : List SourceTerm) (cm : CellMesh) (cb : CellBuilder)
    (source_mask : Option (Nat → Nat))
    (compute :
      Nat → Option SourceTerm → CellMesh → CellBuilder → (Nat → ℚ) → Nat → ℚ)
    (n_dofs : Nat) (source0 : Nat → ℚ) :
    cs_source_term_compute_cellwise n_st terms cm cb false source_mask compute
        n_dofs source0
      = (fun i => if i < n_dofs then 0 else source0 i) ∧
    cs_source_term_compute_cellwise n_st terms cm cb true source_mask compute
        n_dofs source0
      = (selected_term_ids n_st source_mask cm.c_id).foldl
          (fun s st_id => compute st_id (terms.get? st_id) cm cb s)
          (fun i => if i < n_dofs then 0 else source0 i) := by
  constructor
  · rfl
  · unfold cs_source_term_compute_cellwise selected_term_ids
    cases source_mask with
    | none => rfl
    | some mask =>
        simp only [Bool.not_true, Bool.false_eq_true, if_false]
        exact (foldl_filter_ite _ _ _ _).symm

/-- C6: the dispatch-resolution switch of cs_source_term_init is total: the
    outcome for every term is a handle or a bft_error abort, never a silent
    NULL entry; and in particular a dual (density) term under the
    vertex-plus-cell scheme, a term with the unrecognized array definition
    variant, and a dual analytic CDOVB term with an unrecognized quadrature
    all abort at resolution time. -/
theorem c6_unsupported_resolution_errors (scheme : SpaceScheme)
    (st : SourceTerm) :
    ((∃ e, resolve_compute_source scheme st = .error e) ∨
      (∃ h, resolve_compute_source scheme st = .ok h)) ∧
    (scheme = .cdovcb → st.dual = true →
      ∃ e, resolve_compute_source scheme st = .error e) ∧
    (st.defType = .byArray →
      ∃ e, resolve_compute_source scheme st = .error e) ∧
    (scheme = .cdovb → st.dual = true → st.defType = .byAnalytic →
      st.quadType = .noneQ →
      ∃ e, resolve_compute_source scheme st = .error e) := by
  refine ⟨?_, ?_, ?_, ?_⟩
  · cases h : resolve_compute_source scheme st with
    | error e => exact Or.inl ⟨e, rfl⟩
    | ok hd => exact Or.inr ⟨hd, rfl⟩
  · rintro rfl hd
    exact ⟨"Invalid type of definition for a source term in CDOVB",
      by simp [resolve_compute_source, hd]⟩
  · intro hdef
    cases scheme with
    | cdovb =>
      by_cases hd : st.dual = true
      · exact ⟨"Invalid type of definition for a source term in CDOVB",
          by simp [resolve_compute_source, hd, hdef]⟩
      · exact ⟨"Invalid type of definition for a source term in CDOVB",
          by simp [resolve_compute_source, hd, hdef]⟩
    | cdovcb =>
      by_cases hd : st.dual = true
      · exact ⟨"Invalid type of definition for a source term in CDOVB",
          by simp [resolve_compute_source, hd]⟩
      · exact ⟨"Invalid type of definition for a source term in CDOVB",
          by simp [resolve_compute_source, hd, hdef]⟩
    | cdofb => exact ⟨"Invalid space scheme for setting the source term.", rfl⟩
    | hho => exact ⟨"Invalid space scheme for setting the source term.", rfl⟩
  · rintro rfl hd hdef hq
    exact ⟨"Invalid type of quadrature for computing a source term with CDOVB schemes",
      by simp [resolve_compute_source, hd, hdef, hq]⟩

/-- Witness for C6: a dual term under the vertex-plus-cell hybrid scheme is
    rejected at resolution time. -/
theorem c6_unsupported_resolution_errors_witness :
    stBary.dual = true ∧
    (∃ e, resolve_compute_source .cdovcb stBary = .error e) :=
  ⟨rfl, (c6_unsupported_resolution_errors .cdovcb stBary).2.1 rfl rfl⟩

/-- C7 counterexample: the claim says that a registry holding a
    non-full-domain term whose subset contains a cell index at or beyond the
    cell count makes mask construction fail with an InvalidConfiguration
    error.  The code performs no bounds check: on the one-term registry whose
    subset is the single index 5 over 2 cells, construction succeeds
    (returns a mask) and the bit of the term is written at the raw index 5,
    which is an out-of-bounds store in the C code. -/
theorem c7_no_bounds_check_counterexample :
    build_source_mask [stOOB] 2 = some (mask_words [stOOB] 2) ∧
    ((mask_words [stOOB] 2) 5).testBit 0 = true := by
  constructor
  · rfl
  · decide

/-- C7 amended: building the mask never validates subset indices against the
    cell count: for any non-full-domain term, construction succeeds (no
    error path exists) and the bit of the term is set at every raw index of
    its subset, including indices at or beyond the cell count. -/
theorem c7_mask_write_at_raw_subset_index (terms : List SourceTerm)
    (n_cells i : Nat) (st : SourceTerm) (hget : terms.get? i = some st)
    (hfull : st.fullLoc = false) :
    build_source_mask terms n_cells = some (mask_words terms n_cells) ∧
    ∀ e, e ∈ st.eltIds → ((mask_words terms n_cells) e).testBit i = true := by
  have hmem : st ∈ terms := List.get?_mem hget
  constructor
  · have hne : ¬ terms.length = 0 := by
      intro h0
      rw [List.length_eq_zero] at h0
      subst h0
      simp at hget
    have hany : terms.any (fun st => !st.fullLoc) = true :=
      List.any_eq_true.mpr ⟨st, hmem, by simp [hfull]⟩
    unfold build_source_mask
    rw [if_neg hne, if_pos hany]
  · intro e he
    rw [testBit_mask_words]
    refine ⟨st, hget, ?_⟩
    unfold st_covers
    rw [hfull]
    simpa using he

/-- Witness for the amended C7 on the out-of-range registry. -/
theorem c7_mask_write_at_raw_subset_index_witness :
    ([stOOB] : List SourceTerm).get? 0 = some stOOB ∧
    stOOB.fullLoc = false ∧
    (build_source_mask [stOOB] 2 = some (mask_words [stOOB] 2) ∧
     ∀ e, e ∈ stOOB.eltIds → ((mask_words [stOOB] 2) e).testBit 0 = true) :=
  ⟨rfl, rfl, c7_mask_write_at_raw_subset_index [stOOB] 2 0 stOOB rfl rfl⟩

lemma destroy_loop_names (k : Nat) (l : List SourceTerm) :
    (destroy_loop k l).1 = l.map (fun st => st.name) := by
  induction l generalizing k with
  | nil => rfl
  | cons st rest ih =>
    rw [destroy_loop]
    by_cases h : (st.arrayOwner && st.array.isSome) = true
    · simp [h, ih]
    · simp [h, ih]

lemma mem_destroy_loop_arrays (k : Nat) (l : List SourceTerm) (i : Nat) :
    i ∈ (destroy_loop k l).2 ↔
      ∃ j st, l.get? j = some st ∧ i = k + j ∧
        st.arrayOwner = true ∧ st.array.isSome = true := by
  induction l generalizing k with
  | nil => simp [destroy_loop]
  | cons st rest ih =>
    rw [destroy_loop]
    by_cases h : (st.arrayOwner && st.array.isSome) = true
    · rw [if_pos h]
      rw [Bool.and_eq_true] at h
      simp only [List.mem_cons, ih]
      constructor
      · rintro (rfl | ⟨j, st2, hget, rfl, hown⟩)
        · exact ⟨0, st, rfl, by omega, h.1, h.2⟩
        · exact ⟨j + 1, st2, by simpa using hget, by omega, hown⟩
      · rintro ⟨j, st2, hget, rfl, hown⟩
        cases j with
        | zero => exact Or.inl (by omega)
        | succ j => exact Or.inr ⟨j, st2, by simpa using hget, by omega, hown⟩
    · rw [if_neg h]
      rw [ih]
      constructor
      · rintro ⟨j, st2, hget, rfl, hown⟩
        exact ⟨j + 1, st2, by simpa using hget, by omega, hown⟩
      · rintro ⟨j, st2, hget, rfl, hown⟩
        cases j with
        | zero =>
            have h2 : st = st2 := by simpa using hget
            subst h2
            rw [Bool.and_eq_true] at h
            exact absurd ⟨hown.1, hown.2⟩ h
        | succ j => exact ⟨j, st2, by simpa using hget, by omega, hown⟩

/-- C8: destroy on a NULL registry is a no-op returning NULL (and running it
    again on the returned registry is again a no-op); on a registry it frees
    the name of every term, returns NULL, and frees the external array of a
    term exactly when the ownership flag is set and the array is present, so
    borrowed arrays are never freed. -/
theorem c8_destroy_frees_owned_arrays_only (l : List SourceTerm) (i : Nat)
    (st : SourceTerm) (hget : l.get? i = some st) :
    cs_source_term_destroy none = (([], []), none) ∧
    cs_source_term_destroy ((cs_source_term_destroy (some l)).2)
      = (([], []), none) ∧
    (cs_source_term_destroy (some l)).1.1 = l.map (fun st => st.name) ∧
    (i ∈ (cs_source_term_destroy (some l)).1.2 ↔
      (st.arrayOwner = true ∧ st.array.isSome = true)) := by
  refine ⟨rfl, rfl, destroy_loop_names 0 l, ?_⟩
  show i ∈ (destroy_loop 0 l).2 ↔ _
  rw [mem_destroy_loop_arrays]
  constructor
  · rintro ⟨j, st2, hget2, hij, hown⟩
    have hji : j = i := by omega
    subst hji
    rw [hget] at hget2
    injection hget2 with h2
    subst h2
    exact hown
  · rintro ⟨h1, h2⟩
    exact ⟨i, st, hget, by omega, h1, h2⟩

/-- Witness for C8 on a registry with one owned and one borrowed array. -/
theorem c8_destroy_frees_owned_arrays_only_witness :
    ([stOwn, stBor] : List SourceTerm).get? 1 = some stBor ∧
    (cs_source_term_destroy none = (([], []), none) ∧
     cs_source_term_destroy ((cs_source_term_destroy (some [stOwn, stBor])).2)
       = (([], []), none) ∧
     (cs_source_term_destroy (some [stOwn, stBor])).1.1
       = [stOwn, stBor].map (fun st => st.name) ∧
     (1 ∈ (cs_source_term_destroy (some [stOwn, stBor])).1.2 ↔
       (stBor.arrayOwner = true ∧ stBor.array.isSome = true))) :=
  ⟨rfl, c8_destroy_frees_owned_arrays_only [stOwn, stBor] 1 stBor rfl⟩
